import Mathlib

/-!
Shallow embedding of the KISS-ICP ingestion front-end:
* src/python/kiss_icp/datasets/velodyne.py (VelodynePcapLoader)
* src/src/kiss_icp/preprocess.py (Stubcessor, Preprocessor)

Machine floats are modelled as rationals; numpy arrays and Python lists as
Lean lists; Python exceptions as Option/Except results.  Stateful methods
take the loader state and return the (possibly mutated) state next to the
method result, mirroring the fact that in Python the object is mutated even
when an exception escapes after the mutation.
-/

namespace KissIcp

/-- Timestamp pair yielded by velodyne_decoder.read_pcap for each scan:
the host-clock and device-clock times of the frame. -/
structure Stamp where
  host : ℚ
  device : ℚ
deriving DecidableEq, Repr

/-- One row of a decoded scan array: columns 0..2 are x, y, z, column 3 the
intensity, column 4 the per-point time. -/
structure RawPoint where
  x : ℚ
  y : ℚ
  z : ℚ
  intensity : ℚ
  time : ℚ
deriving DecidableEq, Repr

/-- A decoded scan: the list of rows of the numpy array. -/
abbrev Scan := List RawPoint

/-- A capture as seen through read_pcap: the sequence of (stamp, scan)
pairs the external decoder yields end-to-end. -/
abbrev Capture := List (Stamp × Scan)

/-- Device timestamps collected in the construction-time pre-pass:
np.array([stamp.device for stamp, _ in read_pcap(...)]). -/
def prePassStamps (capture : Capture) : List ℚ :=
  capture.map (fun fr => fr.1.device)

/-- Global normalization performed in VelodynePcapLoader.__init__:
(ts - ts[0]) / (ts[-1] - ts[0]).  Indexing ts[0] of an empty array raises
IndexError, modelled as none. -/
def globalNormalize (ts : List ℚ) : Option (List ℚ) :=
  match ts with
  | [] => none
  | t0 :: rest =>
    let tn := (t0 :: rest).getLast (List.cons_ne_nil t0 rest)
    some ((t0 :: rest).map (fun t => (t - t0) / (tn - t0)))

/-- Span ts[-1] - ts[0] used as the divisor of the global normalization. -/
def globalSpan (ts : List ℚ) : Option ℚ :=
  match ts with
  | [] => none
  | t0 :: rest => some ((t0 :: rest).getLast (List.cons_ne_nil t0 rest) - t0)

/-- State of a VelodynePcapLoader object: the remaining frames of the live
read_pcap iterator (_scans_iter), the _next_idx counter, and the current
value of the _timestamps attribute (a Python list after __init__ rebinds
it). -/
structure LoaderState where
  scansIter : Capture
  nextIdx : Nat
  timestamps : List ℚ
deriving DecidableEq, Repr

/-- VelodynePcapLoader.__init__ on a capture the decoder can read: performs
the pre-pass, computes the globally normalized stamp array (raising
IndexError on an empty capture, modelled as none), prints the count, then
opens a fresh iterator, zeroes _next_idx and rebinds _timestamps to the
empty Python list [] - exactly as the last line of __init__ does. -/
def VelodynePcapLoader.init (capture : Capture) : Option LoaderState :=
  match globalNormalize (prePassStamps capture) with
  | none => none
  | some _normalized =>
    some { scansIter := capture, nextIdx := 0, timestamps := [] }

/-- Exceptions that can escape VelodynePcapLoader.__getitem__. -/
inductive StreamError where
  /-- AssertionError from the sequential-access check, carrying the
  expected (_next_idx) and the requested index. -/
  | sequentialAccessViolation (expected requested : Nat)
  /-- StopIteration from next() on an exhausted iterator. -/
  | stopIteration
  /-- IndexError from an out-of-range list indexing or item assignment. -/
  | indexError
deriving DecidableEq, Repr

/-- Python list item assignment lst[i] = v for a non-negative index:
succeeds only when i < len(lst), otherwise raises IndexError (none). -/
def listSetAt (l : List ℚ) (i : Nat) (v : ℚ) : Option (List ℚ) :=
  if i < l.length then some (l.set i v) else none

/-- Spatial projection scan[:, :3]. -/
def scanXYZ (scan : Scan) : List (ℚ × ℚ × ℚ) :=
  scan.map (fun p => (p.x, p.y, p.z))

/-- Per-frame (local) normalization of the per-point time channel, as in
__getitem__: (timestamps - timestamps[0]) * (1 / (timestamps[-1] -
timestamps[0])), on the nonempty time list t0 :: trest. -/
def normalizeTimes (t0 : ℚ) (trest : List ℚ) : List ℚ :=
  let tlast := (t0 :: trest).getLast (List.cons_ne_nil t0 trest)
  (t0 :: trest).map (fun t => (t - t0) * (1 / (tlast - t0)))

/-- VelodynePcapLoader.__getitem__(idx).  Returns the state of the object
after the call next to either the (xyz, normalized per-point timestamps)
result or the exception that escaped.  The assert fires before any
mutation; next() advances the iterator and _next_idx is incremented before
the device stamp is written into the _timestamps list, so those mutations
survive a later IndexError, as in Python. -/
def VelodynePcapLoader.getitem (st : LoaderState) (idx : Nat) :
    LoaderState × Except StreamError (List (ℚ × ℚ × ℚ) × List ℚ) :=
  if st.nextIdx = idx then
    match st.scansIter with
    | [] => (st, .error .stopIteration)
    | (stamp, scan) :: rest =>
      match listSetAt st.timestamps (st.nextIdx + 1 - 1) stamp.device with
      | none =>
        ({ scansIter := rest, nextIdx := st.nextIdx + 1,
           timestamps := st.timestamps }, .error .indexError)
      | some ts =>
        match scan.map RawPoint.time with
        | [] =>
          ({ scansIter := rest, nextIdx := st.nextIdx + 1,
             timestamps := ts }, .error .indexError)
        | t0 :: trest =>
          ({ scansIter := rest, nextIdx := st.nextIdx + 1,
             timestamps := ts }, .ok (scanXYZ scan, normalizeTimes t0 trest))
  else (st, .error (.sequentialAccessViolation st.nextIdx idx))

/-- VelodynePcapLoader.get_frames_timestamps: returns self._timestamps. -/
def VelodynePcapLoader.getFramesTimestamps (st : LoaderState) : List ℚ :=
  st.timestamps

/-- VelodynePcapLoader.__len__: returns len(self._timestamps). -/
def VelodynePcapLoader.len (st : LoaderState) : Nat :=
  st.timestamps.length

/-! Format probe VelodynePcapLoader.is_velodyne_pcap. -/

/-- A low-level packet as seen by the probe: its byte length and the dual
return mode field parse_packet(packet)[3]. -/
structure RawPacket where
  size : Nat
  dualReturnMode : Nat
deriving DecidableEq, Repr

/-- Check applied to one sampled packet: exact expected packet size and a
dual return mode among the valid markers 0x37, 0x38, 0x39. -/
def velodynePacketMatch (packetSize : Nat) (pkt : RawPacket) : Bool :=
  pkt.size == packetSize &&
    (pkt.dualReturnMode == 0x37 || pkt.dualReturnMode == 0x38 ||
      pkt.dualReturnMode == 0x39)

/-- Loop body of is_velodyne_pcap: enumerate the packets starting at
counter i, break as soon as i > max_packets, return True on the first
matching packet, False when the capture or the window ends. -/
def sniffLoop (packetSize maxPackets : Nat) : Nat → List RawPacket → Bool
  | _, [] => false
  | i, pkt :: rest =>
    if maxPackets < i then false
    else if velodynePacketMatch packetSize pkt then true
    else sniffLoop packetSize maxPackets (i + 1) rest

/-- VelodynePcapLoader.is_velodyne_pcap with the decoder importable,
abstracted over the decoder constant PACKET_SIZE and over the packet
sequence iter_pcap yields for the path. -/
def is_velodyne_pcap (packetSize : Nat) (packets : List RawPacket)
    (maxPackets : Nat) : Bool :=
  sniffLoop packetSize maxPackets 0 packets

/-- Number of packets the loop actually examines (size-checks) before it
returns: the loop counts i = 0, 1, ... and only stops once i > max_packets
or the list ends or a match is found. -/
def sniffExamined (packetSize maxPackets : Nat) : Nat → List RawPacket → Nat
  | _, [] => 0
  | i, pkt :: rest =>
    if maxPackets < i then 0
    else if velodynePacketMatch packetSize pkt then 1
    else 1 + sniffExamined packetSize maxPackets (i + 1) rest

/-- Outcome of the import statement at the top of is_velodyne_pcap. -/
inductive ImportOutcome where
  /-- velodyne_decoder imports fine. -/
  | available
  /-- ImportError whose name field is velodyne_decoder: the probe prints a
  warning and returns False. -/
  | missingVelodyneDecoder
  /-- ImportError for some other module: re-raised. -/
  | otherImportFailure
deriving DecidableEq, Repr

/-- VelodynePcapLoader.is_velodyne_pcap including its import handling:
Except.error models an exception escaping the call. -/
def isVelodynePcapProbe (imp : ImportOutcome) (packetSize : Nat)
    (packets : List RawPacket) (maxPackets : Nat) : Except Unit Bool :=
  match imp with
  | .available => .ok (is_velodyne_pcap packetSize packets maxPackets)
  | .missingVelodyneDecoder => .ok false
  | .otherImportFailure => .error ()

/-! Embedding of src/src/kiss_icp/preprocess.py. -/

/-- A 3D point of a point cloud frame. -/
structure Point3 where
  x : ℚ
  y : ℚ
  z : ℚ
deriving DecidableEq, Repr

/-- Squared Euclidean distance of a point from the sensor origin. -/
def Point3.normSq (p : Point3) : ℚ :=
  p.x ^ 2 + p.y ^ 2 + p.z ^ 2

/-- Modelled from the spec: kiss_icp_pybind._preprocess is native code not
under src; per the RangeFilter contract it returns a new cloud holding
exactly the input points p with min_range <= norm p <= max_range, in input
order.  Over rational coordinates the band condition is stated on squared
norms, which is equivalent for a non-negative band. -/
def kiss_icp_pybind_preprocess (frame : List Point3)
    (max_range min_range : ℚ) : List Point3 :=
  frame.filter
    (fun p => decide (min_range ^ 2 ≤ p.normSq ∧ p.normSq ≤ max_range ^ 2))

/-- Range band read from KISSConfig.data. -/
structure DataConfig where
  max_range : ℚ
  min_range : ℚ
deriving DecidableEq, Repr

/-- Preprocessor.__call__: delegates to the pybind kernel with the
configured band. -/
def Preprocessor.call (config : DataConfig) (frame : List Point3) :
    List Point3 :=
  kiss_icp_pybind_preprocess frame config.max_range config.min_range

/-- Stubcessor.__call__: returns its argument. -/
def Stubcessor.call (frame : List Point3) : List Point3 :=
  frame

/-! Concrete data used to evaluate the loader at failing inputs. -/

/-- A two-point scan with distinct per-point times. -/
def demoScan : Scan :=
  [⟨1, 2, 3, 4, 0⟩, ⟨2, 3, 4, 5, 1⟩]

/-- A two-frame capture with distinct device stamps 10 and 20. -/
def demoCapture : Capture :=
  [(⟨100, 10⟩, demoScan), (⟨101, 20⟩, demoScan)]

/-- The loader state VelodynePcapLoader.init yields on demoCapture. -/
def demoState : LoaderState :=
  { scansIter := demoCapture, nextIdx := 0, timestamps := [] }

/-- A two-frame capture whose first and last device stamps are equal. -/
def demoCaptureEqualStamps : Capture :=
  [(⟨100, 5⟩, demoScan), (⟨101, 5⟩, demoScan)]

/-- A packet that fails the size check. -/
def demoBadPacket : RawPacket := ⟨100, 0⟩

/-- A packet with the expected size 1206 and a valid mode marker. -/
def demoGoodPacket : RawPacket := ⟨1206, 0x37⟩

/-- Range band of the spec example: min_range 5, max_range 50. -/
def demoConfig : DataConfig := ⟨50, 5⟩

/-- Point cloud of the spec example: points at distances 1, 5, 25, 50, 60
from the origin. -/
def demoFrame : List Point3 :=
  [⟨1, 0, 0⟩, ⟨5, 0, 0⟩, ⟨25, 0, 0⟩, ⟨50, 0, 0⟩, ⟨60, 0, 0⟩]

/-- A three-point scan with strictly increasing times 0, 1, 2. -/
def demoRichScan : Scan :=
  [⟨1, 0, 0, 9, 0⟩, ⟨0, 1, 0, 9, 1⟩, ⟨0, 0, 1, 9, 2⟩]

/-- Frame stamp for the scan above. -/
def demoRichStamp : Stamp := ⟨100, 10⟩

/-- A loader state holding one pending frame and a one-slot _timestamps
list, so that the device-stamp write in __getitem__ succeeds. -/
def demoRichState : LoaderState :=
  { scansIter := [(demoRichStamp, demoRichScan)], nextIdx := 0,
    timestamps := [7] }

/-- The state after reading the single frame of demoRichState. -/
def demoRichStateAfter : LoaderState :=
  { scansIter := [], nextIdx := 1, timestamps := [10] }

/-! Claim theorems. -/

/-- C1: the claim says frame_count() equals the number of frames the
decoder yields, at any time after construction.  On the code, __init__
rebinds _timestamps to the empty list after the pre-pass, so __len__
returns 0 immediately after construction of a 2-frame capture. -/
theorem frame_count_zero_after_init :
    demoCapture.length = 2 ∧
      (VelodynePcapLoader.init demoCapture).map VelodynePcapLoader.len =
        some 0 :=
  ⟨rfl, rfl⟩

/-- C2: the claim says frame_at(i) succeeds for i = 0..N-1.  On the code,
the very first read frame_at(0) raises IndexError: __getitem__ assigns
self._timestamps[0] while _timestamps is the empty list __init__ left
behind. -/
theorem first_frame_read_raises_index_error :
    VelodynePcapLoader.init demoCapture = some demoState ∧
      demoCapture.length = 2 ∧
      (VelodynePcapLoader.getitem demoState 0).2 =
        .error StreamError.indexError :=
  ⟨rfl, rfl, rfl⟩

/-- C3: the claim says get_frames_timestamps() returns the globally
normalized pre-pass device timestamps.  The pre-pass of demoCapture
computes the normalized list [0, 1], but after construction the operation
returns the empty list _timestamps was rebound to. -/
theorem frames_timestamps_empty_after_init :
    VelodynePcapLoader.init demoCapture = some demoState ∧
      VelodynePcapLoader.getFramesTimestamps demoState = [] ∧
      globalNormalize (prePassStamps demoCapture) = some [0, 1] := by
  refine ⟨rfl, rfl, ?_⟩
  simp [globalNormalize, prePassStamps, demoCapture, demoScan, List.getLast]
  norm_num

/-- C4: requesting any index other than the next expected one fails with
the sequential-access assertion carrying the expected and the requested
index, and the loader state is returned unchanged, so a later call with
the correct index behaves as if the violating call never happened. -/
theorem getitem_sequential_access_violation (st : LoaderState) (k : Nat)
    (h : st.nextIdx ≠ k) :
    VelodynePcapLoader.getitem st k =
      (st, .error (.sequentialAccessViolation st.nextIdx k)) := by
  unfold VelodynePcapLoader.getitem
  simp [h]

/-- Witness for C4 at a concrete state and index. -/
theorem getitem_sequential_access_violation_witness :
    demoState.nextIdx ≠ 1 ∧
      VelodynePcapLoader.getitem demoState 1 =
        (demoState,
          .error (.sequentialAccessViolation demoState.nextIdx 1)) :=
  ⟨by decide, getitem_sequential_access_violation demoState 1 (by decide)⟩

/-- C7: the passthrough variant Stubcessor returns every input point cloud
unchanged, element for element. -/
theorem stubcessor_identity (frame : List Point3) :
    Stubcessor.call frame = frame :=
  rfl

/-- C9: when the decoder dependency is absent the probe returns False and
no exception escapes, whatever the path contents and the sample window. -/
theorem probe_missing_decoder_returns_false (packetSize : Nat)
    (packets : List RawPacket) (maxPackets : Nat) :
    isVelodynePcapProbe .missingVelodyneDecoder packetSize packets
      maxPackets = .ok false :=
  rfl

/-- C10: the construction-time global normalization is unguarded.  On an
empty capture, construction raises (it indexes the first element of an
empty stamp array); on a capture whose first and last device stamps are
equal the divisor of the normalization is the zero span, yet construction
is not rejected with any distinct error. -/
theorem init_unguarded_degenerate (c : Capture) (hne : c ≠ [])
    (heq : (prePassStamps c).head? = (prePassStamps c).getLast?) :
    VelodynePcapLoader.init ([] : Capture) = none ∧
      globalSpan (prePassStamps c) = some 0 ∧
      (VelodynePcapLoader.init c).isSome := by
  refine ⟨rfl, ?_, ?_⟩
  · cases c with
    | nil => exact absurd rfl hne
    | cons fr rest =>
      have hpp : prePassStamps (fr :: rest) =
          fr.1.device :: prePassStamps rest := rfl
      rw [hpp] at heq ⊢
      rw [List.getLast?_eq_getLast (fr.1.device :: prePassStamps rest)
        (List.cons_ne_nil _ _)] at heq
      have hdev : fr.1.device =
          (fr.1.device :: prePassStamps rest).getLast
            (List.cons_ne_nil _ _) := by
        simpa using heq
      rw [globalSpan, ← hdev]
      simp
  · cases c with
    | nil => exact absurd rfl hne
    | cons fr rest =>
      have hpp : prePassStamps (fr :: rest) =
          fr.1.device :: prePassStamps rest := rfl
      rw [VelodynePcapLoader.init, hpp, globalNormalize]
      simp

/-- Witness for C10 at a concrete equal-stamp capture. -/
theorem init_unguarded_degenerate_witness :
    demoCaptureEqualStamps ≠ [] ∧
      (prePassStamps demoCaptureEqualStamps).head? =
        (prePassStamps demoCaptureEqualStamps).getLast? ∧
      (VelodynePcapLoader.init ([] : Capture) = none ∧
        globalSpan (prePassStamps demoCaptureEqualStamps) = some 0 ∧
        (VelodynePcapLoader.init demoCaptureEqualStamps).isSome) :=
  ⟨by simp [demoCaptureEqualStamps], by rfl,
    init_unguarded_degenerate demoCaptureEqualStamps
      (by simp [demoCaptureEqualStamps]) (by rfl)⟩

/-- Windowed characterization of the sniff loop: starting the counter at i,
the loop returns True exactly when a packet in the first
max_packets + 1 - i remaining packets matches. -/
theorem sniffLoop_eq_true_iff (packetSize maxPackets : Nat) :
    ∀ (packets : List RawPacket) (i : Nat),
      sniffLoop packetSize maxPackets i packets = true ↔
        ∃ pkt ∈ packets.take (maxPackets + 1 - i),
          velodynePacketMatch packetSize pkt = true := by
  intro packets
  induction packets with
  | nil => intro i; simp [sniffLoop]
  | cons pkt rest ih =>
    intro i
    rw [sniffLoop]
    by_cases hi : maxPackets < i
    · have hz : maxPackets + 1 - i = 0 := Nat.sub_eq_zero_of_le hi
      simp [hi, hz]
    · have hle : i ≤ maxPackets := Nat.le_of_not_lt hi
      have hsucc : maxPackets + 1 - i = (maxPackets - i) + 1 := by omega
      have hsucc2 : maxPackets + 1 - (i + 1) = maxPackets - i := by omega
      by_cases hm : velodynePacketMatch packetSize pkt = true
      · simp [hi, hm, hsucc]
      · have hrest := ih (i + 1)
        rw [hsucc2] at hrest
        simp [hi, hm, hsucc, hrest]

/-- Number of packets the loop examines when the counter starts at i. -/
theorem sniffExamined_le (packetSize maxPackets : Nat) :
    ∀ (packets : List RawPacket) (i : Nat),
      sniffExamined packetSize maxPackets i packets ≤ maxPackets + 1 - i := by
  intro packets
  induction packets with
  | nil => intro i; simp [sniffExamined]
  | cons pkt rest ih =>
    intro i
    rw [sniffExamined]
    by_cases hi : maxPackets < i
    · simp [hi]
    · have hrest := ih (i + 1)
      by_cases hm : velodynePacketMatch packetSize pkt = true
      · simp [hi, hm]
        omega
      · simp [hi, hm]
        omega

/-- C8 (amended): the probe examines at most max_packets + 1 packets
(loop indices 0 .. max_packets) and returns True exactly when one of the
first max_packets + 1 packets has the expected size and a valid dual
return mode marker; it never touches the rest of the capture. -/
theorem sniff_window_characterization (packetSize maxPackets : Nat)
    (packets : List RawPacket) :
    sniffExamined packetSize maxPackets 0 packets ≤ maxPackets + 1 ∧
      (is_velodyne_pcap packetSize packets maxPackets = true ↔
        ∃ pkt ∈ packets.take (maxPackets + 1),
          velodynePacketMatch packetSize pkt = true) := by
  constructor
  · simpa using sniffExamined_le packetSize maxPackets packets 0
  · simpa using sniffLoop_eq_true_iff packetSize maxPackets packets 0

/-- C8 (counterexample): with max_packets = 1 the probe still examines the
packet at loop index 1 - its second sampled packet - so it examines two
packets, and returns True although no packet among the first max_packets
packets matches. -/
theorem sniff_examines_beyond_max_packets :
    is_velodyne_pcap 1206 [demoBadPacket, demoGoodPacket] 1 = true ∧
      (∀ pkt ∈ [demoBadPacket, demoGoodPacket].take 1,
        velodynePacketMatch 1206 pkt = false) ∧
      sniffExamined 1206 1 0 [demoBadPacket, demoGoodPacket] = 2 := by
  refine ⟨rfl, ?_, rfl⟩
  decide

/-- Squared norms are non-negative. -/
theorem Point3.normSq_nonneg (p : Point3) : 0 ≤ p.normSq := by
  have h1 : (0:ℚ) ≤ p.x ^ 2 := sq_nonneg p.x
  have h2 : (0:ℚ) ≤ p.y ^ 2 := sq_nonneg p.y
  have h3 : (0:ℚ) ≤ p.z ^ 2 := sq_nonneg p.z
  unfold Point3.normSq
  linarith

/-- For a non-negative band, the squared-norm condition the embedded filter
tests coincides with the Euclidean-distance condition of the contract. -/
theorem band_sq_iff_sqrt (minr maxr s : ℚ) (hmin : 0 ≤ minr)
    (hmax : 0 ≤ maxr) (hs : 0 ≤ s) :
    (minr ^ 2 ≤ s ∧ s ≤ maxr ^ 2) ↔
      ((minr : ℝ) ≤ Real.sqrt (s : ℝ) ∧ Real.sqrt (s : ℝ) ≤ (maxr : ℝ)) := by
  have hs' : (0:ℝ) ≤ (s:ℝ) := by exact_mod_cast hs
  have hmin' : (0:ℝ) ≤ (minr:ℝ) := by exact_mod_cast hmin
  have hmax' : (0:ℝ) ≤ (maxr:ℝ) := by exact_mod_cast hmax
  rw [Real.le_sqrt hmin' hs', Real.sqrt_le_left hmax']
  constructor
  · rintro ⟨h1, h2⟩
    exact ⟨by exact_mod_cast h1, by exact_mod_cast h2⟩
  · rintro ⟨h1, h2⟩
    exact ⟨by exact_mod_cast h1, by exact_mod_cast h2⟩

/-- C6: for any point cloud and any well-formed non-negative range band,
the range filter returns an order-preserving selection of the input
(a sublist), a point belongs to the output exactly when it belongs to the
input and its Euclidean distance from the origin lies in the band, and
every point satisfying the band condition keeps all its occurrences. -/
theorem preprocessor_range_filter (config : DataConfig)
    (frame : List Point3) (hmin : 0 ≤ config.min_range)
    (hband : config.min_range ≤ config.max_range) :
    (Preprocessor.call config frame).Sublist frame ∧
      (∀ p : Point3, p ∈ Preprocessor.call config frame ↔
        p ∈ frame ∧
          ((config.min_range : ℝ) ≤ Real.sqrt (p.normSq : ℝ) ∧
            Real.sqrt (p.normSq : ℝ) ≤ (config.max_range : ℝ))) ∧
      (∀ p : Point3,
        ((config.min_range : ℝ) ≤ Real.sqrt (p.normSq : ℝ) ∧
          Real.sqrt (p.normSq : ℝ) ≤ (config.max_range : ℝ)) →
        (Preprocessor.call config frame).count p = frame.count p) := by
  have hmax : 0 ≤ config.max_range := hmin.trans hband
  have bridge : ∀ p : Point3,
      (config.min_range ^ 2 ≤ p.normSq ∧
        p.normSq ≤ config.max_range ^ 2) ↔
      ((config.min_range : ℝ) ≤ Real.sqrt (p.normSq : ℝ) ∧
        Real.sqrt (p.normSq : ℝ) ≤ (config.max_range : ℝ)) :=
    fun p => band_sq_iff_sqrt config.min_range config.max_range p.normSq
      hmin hmax p.normSq_nonneg
  refine ⟨List.filter_sublist frame, fun p => ?_, fun p hp => ?_⟩
  · rw [Preprocessor.call, kiss_icp_pybind_preprocess, List.mem_filter]
    simp only [decide_eq_true_eq]
    exact and_congr_right (fun _ => bridge p)
  · rw [Preprocessor.call, kiss_icp_pybind_preprocess]
    exact List.count_filter (by simpa using (bridge p).mpr hp)

/-- Witness for C6 on the spec example, together with the concrete value
of the filtered cloud: exactly the points at distances 5, 25 and 50. -/
theorem preprocessor_range_filter_witness :
    (0 ≤ demoConfig.min_range ∧
      demoConfig.min_range ≤ demoConfig.max_range) ∧
      Preprocessor.call demoConfig demoFrame =
        [⟨5, 0, 0⟩, ⟨25, 0, 0⟩, ⟨50, 0, 0⟩] ∧
      ((Preprocessor.call demoConfig demoFrame).Sublist demoFrame ∧
        (∀ p : Point3, p ∈ Preprocessor.call demoConfig demoFrame ↔
          p ∈ demoFrame ∧
            ((demoConfig.min_range : ℝ) ≤ Real.sqrt (p.normSq : ℝ) ∧
              Real.sqrt (p.normSq : ℝ) ≤ (demoConfig.max_range : ℝ))) ∧
        (∀ p : Point3,
          ((demoConfig.min_range : ℝ) ≤ Real.sqrt (p.normSq : ℝ) ∧
            Real.sqrt (p.normSq : ℝ) ≤ (demoConfig.max_range : ℝ)) →
          (Preprocessor.call demoConfig demoFrame).count p =
            demoFrame.count p)) :=
  ⟨⟨by norm_num [demoConfig], by norm_num [demoConfig]⟩,
    by norm_num [Preprocessor.call, kiss_icp_pybind_preprocess, demoConfig,
      demoFrame, Point3.normSq, List.filter_cons],
    preprocessor_range_filter demoConfig demoFrame
      (by norm_num [demoConfig]) (by norm_num [demoConfig])⟩

/-- In a strictly increasing list every element is at most the last one. -/
theorem le_getLast_of_pairwise_lt (l : List ℚ) (hl : l ≠ [])
    (hp : l.Pairwise (fun a b => a < b)) :
    ∀ x ∈ l, x ≤ l.getLast hl := by
  induction l with
  | nil => exact absurd rfl hl
  | cons a t ih =>
    intro x hx
    cases t with
    | nil =>
      have hx' : x = a := by simpa using hx
      simp [hx', List.getLast]
    | cons b t2 =>
      rw [List.getLast_cons (List.cons_ne_nil b t2)]
      rcases List.mem_cons.mp hx with h1 | h2
      · have hlt := (List.pairwise_cons.mp hp).1 _
          (List.getLast_mem (List.cons_ne_nil b t2))
        exact h1 ▸ hlt.le
      · exact ih (List.cons_ne_nil b t2) (List.pairwise_cons.mp hp).2 x h2

/-- Properties of the per-frame normalization on a strictly increasing
time channel with at least two points: first value 0, last value 1, all
values in the unit interval, strict order preserved. -/
theorem normalizeTimes_props (t0 : ℚ) (trest : List ℚ) (hne : trest ≠ [])
    (hp : (t0 :: trest).Pairwise (fun a b => a < b)) :
    (normalizeTimes t0 trest).head? = some 0 ∧
      (normalizeTimes t0 trest).getLast? = some 1 ∧
      (∀ u ∈ normalizeTimes t0 trest, 0 ≤ u ∧ u ≤ 1) ∧
      (normalizeTimes t0 trest).Pairwise (fun a b => a < b) := by
  have hl0 : (t0 :: trest) ≠ [] := List.cons_ne_nil t0 trest
  set tl := (t0 :: trest).getLast hl0 with htl
  have hnorm : normalizeTimes t0 trest =
      (t0 :: trest).map (fun t => (t - t0) * (1 / (tl - t0))) := rfl
  have htl_mem : tl ∈ trest := by
    rw [htl, List.getLast_cons hne]
    exact List.getLast_mem hne
  have h0tl : t0 < tl := (List.pairwise_cons.mp hp).1 tl htl_mem
  have hspan : 0 < tl - t0 := by linarith
  have hspan' : tl - t0 ≠ 0 := ne_of_gt hspan
  refine ⟨?_, ?_, ?_, ?_⟩
  · rw [hnorm]
    simp
  · rw [hnorm, List.getLast?_map,
      List.getLast?_eq_getLast (t0 :: trest) hl0]
    show some (((t0 :: trest).getLast hl0 - t0) * (1 / (tl - t0))) = some 1
    rw [← htl, mul_one_div, div_self hspan']
  · intro u hu
    rw [hnorm] at hu
    rcases List.mem_map.mp hu with ⟨t, htmem, rfl⟩
    have ht0 : t0 ≤ t := by
      rcases List.mem_cons.mp htmem with h1 | h2
      · exact h1.ge
      · exact ((List.pairwise_cons.mp hp).1 t h2).le
    have httl : t ≤ tl := le_getLast_of_pairwise_lt (t0 :: trest) hl0 hp t htmem
    constructor
    · have h1 : 0 ≤ t - t0 := by linarith
      have h2 : 0 ≤ 1 / (tl - t0) := by positivity
      exact mul_nonneg h1 h2
    · show (t - t0) * (1 / (tl - t0)) ≤ 1
      rw [mul_one_div, div_le_one hspan]
      linarith
  · rw [hnorm]
    refine List.Pairwise.map _ (fun a b hab => ?_) hp
    have hpos : 0 < 1 / (tl - t0) := by positivity
    have hsub : a - t0 < b - t0 := by linarith
    exact mul_lt_mul_of_pos_right hsub hpos

/-- C5: whenever a frame_at call returns a result, on a frame whose
per-point times are strictly increasing (at least two points), the
returned normalized timestamps start at 0, end at 1, all lie in [0, 1],
and are themselves strictly increasing. -/
theorem getitem_normalized_timestamps (st st2 : LoaderState) (idx : Nat)
    (stamp : Stamp) (scan : Scan) (rest : Capture)
    (xyz : List (ℚ × ℚ × ℚ)) (nts : List ℚ)
    (hscan : st.scansIter = (stamp, scan) :: rest)
    (hlen : 2 ≤ scan.length)
    (hmono : scan.Pairwise (fun p q => p.time < q.time))
    (hok : VelodynePcapLoader.getitem st idx = (st2, Except.ok (xyz, nts))) :
    nts.head? = some 0 ∧ nts.getLast? = some 1 ∧
      (∀ u ∈ nts, 0 ≤ u ∧ u ≤ 1) ∧
      nts.Pairwise (fun a b => a < b) := by
  unfold VelodynePcapLoader.getitem at hok
  split at hok
  · split at hok
    · simp at hok
    · next stamp1 scan1 rest1 heq =>
      rw [hscan] at heq
      simp only [List.cons.injEq, Prod.mk.injEq] at heq
      obtain ⟨⟨hstamp1, hscan1⟩, hrest1⟩ := heq
      split at hok
      · simp at hok
      · split at hok
        · simp at hok
        · next t0 trest heq2 =>
          have hnts : nts = normalizeTimes t0 trest := by
            have h2 := congrArg Prod.snd hok
            simp only at h2
            exact (congrArg Prod.snd (Except.ok.inj h2)).symm
          have hpair : (t0 :: trest).Pairwise (fun a b => a < b) := by
            rw [← heq2, List.pairwise_map, ← hscan1]
            exact hmono
          have hne : trest ≠ [] := by
            have hlen2 : (t0 :: trest).length = scan.length := by
              rw [← heq2, ← hscan1, List.length_map]
            intro hcon
            rw [hcon] at hlen2
            simp at hlen2
            omega
          rw [hnts]
          exact normalizeTimes_props t0 trest hne hpair
  · simp at hok


/-- Evaluation of __getitem__ on the concrete state demoRichState. -/
theorem demoRichGetitem :
    VelodynePcapLoader.getitem demoRichState 0 =
      (demoRichStateAfter,
        Except.ok (scanXYZ demoRichScan, [0, 1/2, 1])) := by
  norm_num [VelodynePcapLoader.getitem, demoRichState, demoRichStateAfter,
    demoRichStamp, demoRichScan, listSetAt, normalizeTimes, scanXYZ,
    List.getLast]

/-- Witness for C5: a concrete loader state whose _timestamps list is
nonempty, holding one frame of three points with times 0, 1, 2; the call
returns the normalized timestamps [0, 1/2, 1]. -/
theorem getitem_normalized_timestamps_witness :
    demoRichState.scansIter = [(demoRichStamp, demoRichScan)] ∧
      2 ≤ demoRichScan.length ∧
      demoRichScan.Pairwise (fun p q => p.time < q.time) ∧
      VelodynePcapLoader.getitem demoRichState 0 =
        (demoRichStateAfter,
          Except.ok (scanXYZ demoRichScan, [0, 1/2, 1])) ∧
      (([0, 1/2, 1] : List ℚ).head? = some 0 ∧
        ([0, 1/2, 1] : List ℚ).getLast? = some 1 ∧
        (∀ u ∈ ([0, 1/2, 1] : List ℚ), 0 ≤ u ∧ u ≤ 1) ∧
        ([0, 1/2, 1] : List ℚ).Pairwise (fun a b => a < b)) := by
  refine ⟨rfl, by decide, ?_, demoRichGetitem, ?_⟩
  · norm_num [demoRichScan, List.pairwise_cons]
  · exact getitem_normalized_timestamps demoRichState demoRichStateAfter 0
      demoRichStamp demoRichScan [] (scanXYZ demoRichScan) [0, 1/2, 1]
      rfl (by decide) (by norm_num [demoRichScan, List.pairwise_cons])
      demoRichGetitem

end KissIcp
